import Mathlib

/-!
Verification development for the event bus and reactive state store of the
makeki.xyz portfolio repository (`assets/scripts/eventBus.js`,
`assets/scripts/stateManager.js`).

The embedding is value-level: JavaScript objects become inductive trees,
the `Map`s of buckets become functions from strings to lists (the source
deletes a bucket exactly when it becomes empty, so an absent bucket and an
empty bucket are observationally identical), and callback side effects are
interpreted through a small inductive action type.  A second, heap-based
model is developed further down for the parts of `setState` whose behaviour
depends on object identity (the `{ ...this.state }` shallow spreads that
feed the history buffer).
-/

/-- JavaScript values stored in the state tree.  Empty arrays of the initial
state are represented as empty objects (both are non-null `typeof 'object'`
values, and nothing in the store distinguishes them). -/
inductive Val where
  | vnull
  | vbool (b : Bool)
  | vnum (n : Int)
  | vstr (s : String)
  | obj (fields : List (String × Val))

abbrev Fields := List (String × Val)

/-- Field lookup in an object, first (unique) matching key. -/
def lookupF (fs : Fields) (k : String) : Option Val :=
  match fs with
  | [] => none
  | (k2, v) :: rest => if k2 = k then some v else lookupF rest k

/-- Assignment `target[k] = v` on an object: replaces the binding in place if
the key exists, otherwise appends it (JavaScript key insertion order). -/
def setField (fs : Fields) (k : String) (v : Val) : Fields :=
  match fs with
  | [] => [(k, v)]
  | (k2, w) :: rest => if k2 = k then (k2, v) :: rest else (k2, w) :: setField rest k v

/-- Splitting of a character list at `'.'`; always returns at least one
(possibly empty) segment, like JavaScript `split`. -/
def splitSegs (cs : List Char) : List (List Char) :=
  match cs with
  | [] => [[]]
  | c :: rest =>
      let r := splitSegs rest
      if c = '.' then [] :: r
      else
        match r with
        | [] => [[c]]
        | seg :: segs => (c :: seg) :: segs

/-- Path split used by `getState` / `_setNestedValue`: `key.split('.')`. -/
def splitPath (key : String) : List String :=
  (splitSegs key.data).map (fun seg => String.mk seg)

/-- The walk of `StateManager.getState`:
`key.split('.').reduce((obj, prop) => obj && obj[prop] !== undefined ? obj[prop] : undefined, this.state)`.
Walking into a missing key, or reading a property of a primitive or `null`,
yields `undefined` (`none`). -/
def getPath : Val → List String → Option Val
  | v, [] => some v
  | .obj fs, k :: rest =>
      match lookupF fs k with
      | some w => getPath w rest
      | none => none
  | _, _ :: _ => none

/-- Intermediate segment coercion of `_setNestedValue`: an existing object
is walked through, and a missing, primitive or `null` value
(`!obj[key] || typeof obj[key] !== 'object'`) is replaced by `{}`. -/
def childOf (fs : Fields) (k : String) : Fields :=
  match lookupF fs k with
  | some (.obj cf) => cf
  | _ => []

/-- The walk of `StateManager._setNestedValue`: coerce every intermediate
segment with `childOf`, then assign the final segment. -/
def setPath (fs : Fields) : List String → Val → Fields
  | [], _ => fs
  | [k], v => setField fs k v
  | k :: k2 :: rest, v => setField fs k (.obj (setPath (childOf fs k) (k2 :: rest) v))

example : getPath (.obj (setPath [] (splitPath "a.b") (.vnum 1))) (splitPath "a.b") = some (.vnum 1) := rfl

example : getPath (.obj (setPath [("a", .vnum 7)] (splitPath "a.b") (.vnum 1))) (splitPath "a") =
    some (.obj [("b", .vnum 1)]) := rfl

/-! ### State store model (`StateManager`)

Subscriber callbacks are interpreted through `SubAct`: a `plain` callback
returns normally or throws, and a `comp` callback is the `updateComputed`
closure created by `StateManager.computed` (it reads the current dependency
values with `getState` and writes `fn(...inputs)` to the target with a
silent `setState`).  A subscription's JavaScript object identity is modelled
by its `id`. -/

inductive SubAct where
  | plain (throws : Bool)
  | comp (fn : List (Option Val) → Val) (deps : List String) (target : String)

def SubAct.isPlain : SubAct → Bool
  | .plain _ => true
  | .comp _ _ _ => false

/-- Does calling the callback return normally? (`comp` closures in this model
never throw: `fn` is total.) -/
def SubAct.succeeds : SubAct → Bool
  | .plain b => !b
  | .comp _ _ _ => true

structure Subscription where
  id : Nat
  once : Bool
  act : SubAct

/-- A history entry: `{ timestamp: Date.now(), oldState, newState }`.  In this
value-level model the `{ ...this.state }` spreads are value snapshots; the
heap model further below captures their shallowness. -/
structure HistoryEntry where
  timestamp : Nat
  oldState : Fields
  newState : Fields

/-- The state manager.  `subscribers` maps a subscription key to its bucket;
the source stores buckets in a `Map` and deletes a bucket exactly when it
becomes empty, so an absent bucket and an empty list coincide.  `time` stands
for the ambient `Date.now()` clock. -/
structure SM where
  state : Fields
  subscribers : String → List Subscription
  history : List HistoryEntry
  time : Nat

/-- `this.maxHistoryLength = 50`. -/
def maxHistoryLength : Nat := 50

/-- `_addToHistory`: push, then `if (this.history.length > this.maxHistoryLength) this.history.shift()`. -/
def addToHistory (h : List HistoryEntry) (e : HistoryEntry) : List HistoryEntry :=
  let h2 := h ++ [e]
  if maxHistoryLength < h2.length then h2.tail else h2

/-- Observable callback activity during a dispatch: a subscriber callback
invoked with `(value, key)`, or a caught exception logged by `console.error`. -/
inductive SMLog where
  | notified (id : Nat) (key : String) (value : Option Val)
  | errLogged (id : Nat) (key : String)

def SMLog.key : SMLog → String
  | .notified _ k _ => k
  | .errLogged _ k => k

/-- Shared body of `setState`: snapshot the old state, apply all writes via
`_setNestedValue`, and append one history entry — everything `setState` does
before (and regardless of) notification. -/
def writeAndRecord (sm : SM) (entries : List (String × Val)) : SM :=
  let st := entries.foldl (fun s kv => setPath s (splitPath kv.1) kv.2) sm.state
  { sm with state := st, history := addToHistory sm.history ⟨sm.time, sm.state, st⟩ }

/-- Silent single-path `setState` (used by `computed`): writes and records
history but performs no notification. -/
def setStateSilent (sm : SM) (key : String) (v : Val) : SM :=
  writeAndRecord sm [(key, v)]

def updateBucket (subs : String → List Subscription) (key : String)
    (l : List Subscription) : String → List Subscription :=
  fun k => if k = key then l else subs k

/-- `Set.delete` of a subscription object, identified by its id. -/
def removeSub (l : List Subscription) (i : Nat) : List Subscription :=
  l.filter (fun s => s.id ≠ i)

/-- The log produced by calling one subscriber with `(cur, key)` inside the
try/catch of `_notifySubscribers`. -/
def subLog (key : String) (cur : Option Val) (s : Subscription) : List SMLog :=
  match s.act with
  | .plain true => [.notified s.id key cur, .errLogged s.id key]
  | _ => [.notified s.id key cur]

/-- One iteration of the `subscriptions.forEach` loop of `_notifySubscribers`:
call the callback; if it returns normally and the subscription is `once`,
delete it from the live bucket; a thrown exception is caught and logged. -/
def runSub (sm : SM) (key : String) (cur : Option Val) (s : Subscription) :
    SM × List SMLog :=
  match s.act with
  | .plain true => (sm, subLog key cur s)
  | .plain false =>
      let sm2 :=
        if s.once then
          { sm with subscribers := updateBucket sm.subscribers key (removeSub (sm.subscribers key) s.id) }
        else sm
      (sm2, subLog key cur s)
  | .comp fn deps target =>
      let inputs := deps.map (fun d => getPath (.obj sm.state) (splitPath d))
      let sm2 := setStateSilent sm target (fn inputs)
      let sm3 :=
        if s.once then
          { sm2 with subscribers := updateBucket sm2.subscribers key (removeSub (sm2.subscribers key) s.id) }
        else sm2
      (sm3, subLog key cur s)

/-- The `forEach` over the snapshot of the bucket taken by `Array.from`. -/
def notifyFold (key : String) (cur : Option Val) : SM → List Subscription → SM × List SMLog
  | sm, [] => (sm, [])
  | sm, s :: rest =>
      let r := runSub sm key cur s
      let r2 := notifyFold key cur r.1 rest
      (r2.1, r.2 ++ r2.2)

/-- `_notifySubscribers(key)`: snapshot the bucket, read the current value at
`key` once, then run every subscription against that value. -/
def notifyKey (sm : SM) (key : String) : SM × List SMLog :=
  notifyFold key (getPath (.obj sm.state) (splitPath key)) sm (sm.subscribers key)

/-- Sequential `_notifySubscribers` calls for a list of keys. -/
def notifyAll : SM → List String → SM × List SMLog
  | sm, [] => (sm, [])
  | sm, k :: rest =>
      let r := notifyKey sm k
      let r2 := notifyAll r.1 rest
      (r2.1, r.2 ++ r2.2)

/-- `setState(key, value, silent)` with a single string path. -/
def setState (sm : SM) (key : String) (v : Val) (silent : Bool) : SM × List SMLog :=
  let sm2 := writeAndRecord sm [(key, v)]
  if silent then (sm2, []) else notifyKey sm2 key

/-- `setState(bulkObject, _, silent)`: `Object.entries` of the argument, in
insertion order (keys of a JavaScript object are pairwise distinct). -/
def setStateBulk (sm : SM) (entries : List (String × Val)) (silent : Bool) :
    SM × List SMLog :=
  let sm2 := writeAndRecord sm entries
  if silent then (sm2, []) else notifyAll sm2 (entries.map Prod.fst)

/-- The immediate call performed by `subscribe` when `options.immediate` is
not `false`: call with the current value inside try/catch; note that this
call site has no `once` removal. -/
def immediateCall (sm : SM) (key : String) (s : Subscription) : SM × List SMLog :=
  let cur := getPath (.obj sm.state) (splitPath key)
  match s.act with
  | .plain _ => (sm, subLog key cur s)
  | .comp fn deps target =>
      let inputs := deps.map (fun d => getPath (.obj sm.state) (splitPath d))
      (setStateSilent sm target (fn inputs), subLog key cur s)

/-- `subscribe(key, callback, options)`: append to the bucket, then invoke
immediately if requested. -/
def subscribe (sm : SM) (key : String) (s : Subscription) (immediate : Bool) :
    SM × List SMLog :=
  let sm2 := { sm with subscribers := updateBucket sm.subscribers key (sm.subscribers key ++ [s]) }
  if immediate then immediateCall sm2 key s else (sm2, [])

/-- `computed(computeFn, dependencies, targetKey)`: subscribe the shared
`updateComputed` closure to every dependency with `immediate: false`, then
run the initial computation (a silent single-path `setState`). -/
def computed (sm : SM) (fn : List (Option Val) → Val) (deps : List String)
    (target : String) (cid : Nat) : SM :=
  let sub : Subscription := ⟨cid, false, .comp fn deps target⟩
  let sm2 := deps.foldl (fun s d => (subscribe s d sub false).1) sm
  let inputs := deps.map (fun d => getPath (.obj sm2.state) (splitPath d))
  setStateSilent sm2 target (fn inputs)

/-- A step of the caller-supplied `updateFn` of `batch`: a single-path
`setState` call, or a thrown exception that aborts `updateFn`. -/
inductive BatchStep where
  | write (key : String) (v : Val) (silent : Bool)
  | abort

/-- `Set.add` on the `changedKeys` set: insertion order, duplicates collapse. -/
def addUnique (l : List String) (k : String) : List String :=
  if k ∈ l then l else l ++ [k]

/-- Run `updateFn` with `_notifySubscribers` overridden to record changed
keys: each `setState` writes and records history as usual, and its
notification call (skipped when silent) only adds the key to the set; a
thrown exception stops `updateFn`.  Returns the state, the collected keys,
and whether `updateFn` threw. -/
def runBatchSteps : SM → List String → List BatchStep → SM × List String × Bool
  | sm, ks, [] => (sm, ks, false)
  | sm, ks, .abort :: _ => (sm, ks, true)
  | sm, ks, .write k v silent :: rest =>
      let sm2 := writeAndRecord sm [(k, v)]
      runBatchSteps sm2 (if silent then ks else addUnique ks k) rest

/-- `batch(updateFn)`: collect changed keys while `updateFn` runs; in the
`finally` block the original `_notifySubscribers` is restored and invoked
once per collected key — also when `updateFn` threw (the exception then
propagates to the caller, reported by the returned flag). -/
def batch (sm : SM) (steps : List BatchStep) : SM × List SMLog × Bool :=
  let t := runBatchSteps sm [] steps
  let r := notifyAll t.1 t.2.1
  (r.1, r.2, t.2.2)

/-! ### Event bus model (`EventBus`)

A callback is a function object (which may throw when called) or a
non-function value (calling it throws a `TypeError`); object identity is
modelled by the id. -/

inductive Cb where
  | fn (id : Nat) (throws : Bool)
  | notFn (id : Nat)

def Cb.id : Cb → Nat
  | .fn i _ => i
  | .notFn i => i

/-- A registration `{ callback, context, priority, once }` (the `context`
only affects how the callback is called, not what the bus does). -/
structure Handler where
  cb : Cb
  priority : Int

/-- The envelope `{ type, data, timestamp, source }` built by `emit`. -/
structure Envelope where
  type : String
  data : Val
  timestamp : Nat
  source : String

/-- Bus state: `this.events` and `this.onceEvents`.  As with the store, the
source deletes a bucket exactly when it empties, so absent and empty buckets
coincide and each `Map` is modelled as a function to lists (in insertion
order). -/
structure Bus where
  events : String → List Handler
  onceEvents : String → List Handler

def updateHB (m : String → List Handler) (e : String) (l : List Handler) :
    String → List Handler :=
  fun k => if k = e then l else m k

/-- `EventBus.on`: throws synchronously for a non-function callback,
otherwise registers and returns the unsubscribe thunk
`() => this.off(event, callback)` (modelled by the captured pair). -/
def Bus.on (b : Bus) (e : String) (cb : Cb) (priority : Int) :
    Except String (Bus × (String × Nat)) :=
  match cb with
  | .notFn _ => .error "Event callback must be a function"
  | .fn _ _ =>
      .ok ({ b with events := updateHB b.events e (b.events e ++ [⟨cb, priority⟩]) }, (e, cb.id))

/-- `EventBus.once`: registers in the separate once registry with no
validation of the callback, and returns the thunk
`() => this.offOnce(event, callback)`. -/
def Bus.once (b : Bus) (e : String) (cb : Cb) (priority : Int) : Bus × (String × Nat) :=
  ({ b with onceEvents := updateHB b.onceEvents e (b.onceEvents e ++ [⟨cb, priority⟩]) }, (e, cb.id))

/-- Removal of the first handler whose callback is the given one
(`handler.callback === callback`, then `break`). -/
def removeFirstCb : List Handler → Nat → List Handler
  | [], _ => []
  | h :: rest, i => if h.cb.id = i then rest else h :: removeFirstCb rest i

/-- `EventBus.off`. -/
def Bus.off (b : Bus) (e : String) (i : Nat) : Bus :=
  { b with events := updateHB b.events e (removeFirstCb (b.events e) i) }

/-- `EventBus.offOnce` — the effect of the thunk returned by `once`. -/
def Bus.offOnce (b : Bus) (e : String) (i : Nat) : Bus :=
  { b with onceEvents := updateHB b.onceEvents e (removeFirstCb (b.onceEvents e) i) }

/-- Stable insertion of a handler after every handler of priority at least
its own. -/
def insStable (h : Handler) : List Handler → List Handler
  | [] => [h]
  | a :: rest => if h.priority > a.priority then h :: a :: rest else a :: insStable h rest

/-- `handlers.sort((a, b) => b.priority - a.priority)`: the ECMAScript sort
is stable, so the result is the descending-priority reordering that keeps
equal priorities in insertion order. -/
def sortByPriority (l : List Handler) : List Handler :=
  l.foldl (fun acc h => insStable h acc) []

/-- Observable callback activity during `emit`: a callback entered with the
envelope, or a caught exception logged by `console.error` (a throwing
function callback produces both; calling a non-function value throws before
the callback body exists, producing only the log entry). -/
inductive BusLog where
  | called (id : Nat) (env : Envelope)
  | errLogged (id : Nat)

def invokeHandler (env : Envelope) (h : Handler) : List BusLog :=
  match h.cb with
  | .fn i false => [.called i env]
  | .fn i true => [.called i env, .errLogged i]
  | .notFn i => [.errLogged i]

/-- `_handleEventEmission`: sort the bucket snapshot by descending priority,
then call every handler inside try/catch. -/
def handleEmission (handlers : List Handler) (env : Envelope) : List BusLog :=
  (sortByPriority handlers).foldl (fun acc h => acc ++ invokeHandler env h) []

/-- `EventBus.emit`: build the envelope, deliver to the persistent registry,
then to the once registry, then delete the once bucket for the event (the
`has` guard makes the delete a no-op exactly when the bucket is already
absent/empty). -/
def Bus.emit (b : Bus) (e : String) (data : Val) (now : Nat) (source : String) :
    Bus × List BusLog :=
  let env : Envelope := ⟨e, data, now, source⟩
  let log1 := handleEmission (b.events e) env
  let log2 := handleEmission (b.onceEvents e) env
  ({ b with onceEvents := fun k => if k = e then [] else b.onceEvents k }, log1 ++ log2)

/-! ### Heap model for the history snapshots of `setState`

`setState` builds its history entry from `{ ...this.state }` spreads, which
copy only the top level of the tree and share every nested object with the
live state.  Object identity matters there, so this model gives objects
explicit addresses: a heap cell is an object's field list, a field holds a
primitive or a reference to another cell, `alloc` appends a fresh cell. -/

inductive HVal where
  | hnull
  | hbool (b : Bool)
  | hnum (n : Int)
  | hstr (s : String)
  | ref (a : Nat)
deriving DecidableEq

abbrev HObj := List (String × HVal)

structure Heap where
  cells : List HObj
deriving DecidableEq

def lookupH (o : HObj) (k : String) : Option HVal :=
  match o with
  | [] => none
  | (k2, v) :: rest => if k2 = k then some v else lookupH rest k

def setFieldH (o : HObj) (k : String) (v : HVal) : HObj :=
  match o with
  | [] => [(k, v)]
  | (k2, w) :: rest => if k2 = k then (k2, v) :: rest else (k2, w) :: setFieldH rest k v

def hget (h : Heap) (a : Nat) : HObj := h.cells.getD a []

def hset (h : Heap) (a : Nat) (o : HObj) : Heap := ⟨h.cells.set a o⟩

/-- Allocation of a fresh object cell (`{}` or an object literal). -/
def alloc (h : Heap) (o : HObj) : Heap × Nat := (⟨h.cells ++ [o]⟩, h.cells.length)

/-- `_setNestedValue` over the heap: walk the path from the root object,
following references and replacing missing/non-object intermediates by fresh
empty objects, then assign the last segment in place. -/
def setPathHeap (h : Heap) (a : Nat) : List String → HVal → Heap
  | [], _ => h
  | [k], v => hset h a (setFieldH (hget h a) k v)
  | k :: k2 :: rest, v =>
      match lookupH (hget h a) k with
      | some (.ref a2) => setPathHeap h a2 (k2 :: rest) v
      | _ =>
          let p := alloc h []
          let h2 := hset p.1 a (setFieldH (hget p.1 a) k (.ref p.2))
          setPathHeap h2 p.2 (k2 :: rest) v

/-- The `getState` walk over the heap, starting from an object address. -/
def readPathHeap (h : Heap) (a : Nat) : List String → Option HVal
  | [] => some (.ref a)
  | [k] => lookupH (hget h a) k
  | k :: k2 :: rest =>
      match lookupH (hget h a) k with
      | some (.ref a2) => readPathHeap h a2 (k2 :: rest)
      | _ => none

structure HistEntryH where
  timestamp : Nat
  oldAddr : Nat
  newAddr : Nat
deriving DecidableEq

/-- The part of the state manager the heap model covers: the live tree root,
the heap, and the history buffer. -/
structure SMH where
  heap : Heap
  stateAddr : Nat
  history : List HistEntryH
  time : Nat

def addToHistoryH (l : List HistEntryH) (e : HistEntryH) : List HistEntryH :=
  let l2 := l ++ [e]
  if maxHistoryLength < l2.length then l2.tail else l2

/-- `setState` in the heap model (notification aside): allocate the
`oldState` shallow spread, apply all writes through `_setNestedValue`,
allocate the `newState` shallow spread, and append the history entry. -/
def setStateHeap (m : SMH) (entries : List (String × HVal)) : SMH :=
  let p := alloc m.heap (hget m.heap m.stateAddr)
  let h2 := entries.foldl (fun h kv => setPathHeap h m.stateAddr (splitPath kv.1) kv.2) p.1
  let q := alloc h2 (hget h2 m.stateAddr)
  { heap := q.1, stateAddr := m.stateAddr,
    history := addToHistoryH m.history ⟨m.time, p.2, q.2⟩, time := m.time }

/-- The constructor's initial state, heap form: cell 0 is `this.state`; the
empty arrays and `performanceMetrics` are cells 1–5 and `preferences` is
cell 6. -/
def initHeap : Heap := ⟨[
  [("isLoading", .hbool false), ("currentSection", .hstr "hero"), ("theme", .hstr "dark"),
   ("navigationVisible", .hbool true), ("mobileMenuOpen", .hbool false),
   ("skills", .ref 1), ("projects", .ref 2), ("blogPosts", .ref 3), ("experience", .ref 4),
   ("modalOpen", .hbool false), ("modalContent", .hnull),
   ("performanceMetrics", .ref 5), ("preferences", .ref 6)],
  [], [], [], [], [],
  [("reducedMotion", .hbool false), ("highContrast", .hbool false), ("fontSize", .hstr "normal")]]⟩

def initSMH : SMH := ⟨initHeap, 0, [], 0⟩

example :
    readPathHeap (setStateHeap initSMH [("preferences.reducedMotion", .hbool true)]).heap 7
      (splitPath "preferences.reducedMotion") = some (.hbool true) := by decide

/-- Number of callback entries (`called` events) attributed to callback id
`i` in an emission log. -/
def calledCount (l : List BusLog) (i : Nat) : Nat :=
  (l.filter (fun ev => match ev with | .called j _ => j == i | .errLogged _ => false)).length

/-! ### Concrete scenarios used to instantiate the theorems -/

/-- A store with a nested `preferences` object and one plain subscriber on
the exact path `"preferences.reducedMotion"`. -/
def smC1 : SM :=
  ⟨[("preferences", .obj [("reducedMotion", .vbool false)])],
   fun k => if k = "preferences.reducedMotion" then [⟨1, false, .plain false⟩] else [],
   [], 0⟩

/-- A bulk update that rewrites an ancestor object and then a nested path
under it. -/
def entriesC1 : List (String × Val) :=
  [("preferences", .obj [("highContrast", .vbool true)]),
   ("preferences.reducedMotion", .vbool true)]

/-- The heap-model store with a history buffer already at the cap. -/
def smhFullC2 : SMH := ⟨initHeap, 0, List.replicate 50 ⟨0, 0, 0⟩, 9⟩

/-- A store with one plain subscriber on `"k"`. -/
def smC4 : SM :=
  ⟨[("k", .vnum 0)], fun k => if k = "k" then [⟨1, false, .plain false⟩] else [], [], 0⟩

/-- The `batch` body of the spec example — two writes to the same path —
followed by a thrown exception. -/
def stepsC4 : List BatchStep :=
  [.write "k" (.vnum 1) false, .write "k" (.vnum 2) false, .abort]

/-- A store holding numeric `x` and `y` and no subscribers. -/
def smC5 : SM := ⟨[("x", .vnum 2), ("y", .vnum 3)], fun _ => [], [], 0⟩

/-- A derivation function: the sum of two numeric dependencies. -/
def fnC5 : List (Option Val) → Val
  | [some (.vnum a), some (.vnum b)] => .vnum (a + b)
  | _ => .vnull

/-- A bus with a throwing listener (id 1) and a normal listener (id 2) on
`"e"`, plus a once listener (id 3). -/
def busC6 : Bus :=
  ⟨fun k => if k = "e" then [⟨.fn 1 true, 0⟩, ⟨.fn 2 false, 0⟩] else [],
   fun k => if k = "e" then [⟨.fn 3 false, 0⟩] else []⟩

/-- A store with a throwing subscriber (id 1) and a normal subscriber
(id 2) on `"k"`. -/
def smC6 : SM :=
  ⟨[("k", .vnum 0)],
   fun k => if k = "k" then [⟨1, false, .plain true⟩, ⟨2, false, .plain false⟩] else [],
   [], 0⟩

/-- A store with subscribers on the exact strings `"preferences"` and
`"preferences.reducedMotion"`. -/
def smC7 : SM :=
  ⟨[("preferences", .obj [("reducedMotion", .vbool false)])],
   fun k =>
     if k = "preferences" then [⟨1, false, .plain false⟩]
     else if k = "preferences.reducedMotion" then [⟨2, false, .plain false⟩]
     else [],
   [], 0⟩

/-- A bus with one persistent listener (id 2) on `"e"` and an empty once
registry. -/
def busC8 : Bus := ⟨fun k => if k = "e" then [⟨.fn 2 false, 5⟩] else [], fun _ => []⟩

/-- A bus with one persistent listener (id 2) on `"e"`. -/
def busC9 : Bus := ⟨fun k => if k = "e" then [⟨.fn 2 false, 0⟩] else [], fun _ => []⟩

/-- A store with a throwing `once` subscriber (id 1) and a normal `once`
subscriber (id 2) on `"k"`. -/
def smC10 : SM :=
  ⟨[("k", .vnum 0)],
   fun k => if k = "k" then [⟨1, true, .plain true⟩, ⟨2, true, .plain false⟩] else [],
   [], 0⟩

/-! ### Lemmas about the path tree operations -/

theorem lookup_setField_same (fs : Fields) (k : String) (v : Val) :
    lookupF (setField fs k v) k = some v := by
  induction fs with
  | nil => simp [setField, lookupF]
  | cons kv rest ih =>
      obtain ⟨k2, w⟩ := kv
      by_cases h : k2 = k
      · simp [setField, h, lookupF]
      · simp [setField, h, lookupF, ih]

theorem lookup_setField_other (fs : Fields) (k : String) (v : Val) (k2 : String)
    (h : k2 ≠ k) : lookupF (setField fs k v) k2 = lookupF fs k2 := by
  have hk : k ≠ k2 := Ne.symm h
  induction fs with
  | nil => simp [setField, lookupF, hk]
  | cons kv rest ih =>
      obtain ⟨k3, w⟩ := kv
      by_cases h3 : k3 = k
      · subst h3
        simp [setField, lookupF, hk]
      · simp [setField, h3, lookupF, ih]

/-- Reading back the exact path just written yields the written value. -/
theorem get_set_same : ∀ (p : List String) (fs : Fields) (v : Val), p ≠ [] →
    getPath (.obj (setPath fs p v)) p = some v
  | [], _, _, hp => absurd rfl hp
  | [k], fs, v, _ => by simp [setPath, getPath, lookup_setField_same]
  | k :: k2 :: rest, fs, v, _ => by
      have ih := get_set_same (k2 :: rest) (childOf fs k) v (by simp)
      simp only [setPath, getPath, lookup_setField_same]
      exact ih

theorem getPath_cons_of_lookup (fs : Fields) (k : String) (p : List String) (w : Val)
    (h : lookupF fs k = some w) : getPath (.obj fs) (k :: p) = getPath w p := by
  simp [getPath, h]

/-- Walking one segment into the coerced child agrees with the `getState`
walk on paths of at least two segments. -/
theorem getPath_child (fs : Fields) (k b : String) (p3 : List String) :
    getPath (.obj (childOf fs k)) (b :: p3) = getPath (.obj fs) (k :: b :: p3) := by
  simp only [getPath]
  cases hfk : lookupF fs k with
  | none => simp [childOf, hfk, getPath, lookupF]
  | some w => cases w <;> simp [childOf, hfk, getPath, lookupF]

/-- A write at `q` leaves the value read at `p` unchanged whenever neither
path is a prefix of the other. -/
theorem get_set_disjoint : ∀ (q p : List String) (fs : Fields) (v : Val),
    ¬ p <+: q → ¬ q <+: p → getPath (.obj (setPath fs q v)) p = getPath (.obj fs) p
  | [], _, _, _, _, hqp => absurd List.nil_prefix hqp
  | _ :: _, [], _, _, hpq, _ => absurd List.nil_prefix hpq
  | [k], a :: p2, fs, v, _, hqp => by
      by_cases hak : a = k
      · subst hak
        exact absurd ⟨p2, rfl⟩ hqp
      · simp [setPath, getPath, lookup_setField_other _ _ _ _ hak]
  | k :: k2 :: qrest, a :: p2, fs, v, hpq, hqp => by
      by_cases hak : a = k
      · subst hak
        have hp2 : p2 ≠ [] := by
          intro hnil
          subst hnil
          exact hpq (List.cons_prefix_cons.mpr ⟨rfl, List.nil_prefix⟩)
        have hpq2 : ¬ p2 <+: (k2 :: qrest) := fun hh => hpq (List.cons_prefix_cons.mpr ⟨rfl, hh⟩)
        have hqp2 : ¬ (k2 :: qrest) <+: p2 := fun hh => hqp (List.cons_prefix_cons.mpr ⟨rfl, hh⟩)
        have ih := get_set_disjoint (k2 :: qrest) p2 (childOf fs a) v hpq2 hqp2
        obtain ⟨b, p3, rfl⟩ := List.exists_cons_of_ne_nil hp2
        rw [show setPath fs (a :: k2 :: qrest) v
              = setField fs a (.obj (setPath (childOf fs a) (k2 :: qrest) v)) from rfl,
          getPath_cons_of_lookup _ _ _ _ (lookup_setField_same fs a _), ih, getPath_child]
      · simp [setPath, getPath, lookup_setField_other _ _ _ _ hak]

/-! ### Lemmas about `_notifySubscribers` -/

theorem runSub_log (sm : SM) (key : String) (cur : Option Val) (s : Subscription) :
    (runSub sm key cur s).2 = subLog key cur s := by
  obtain ⟨i, o, act⟩ := s
  cases act with
  | plain b => cases b <;> simp [runSub]
  | comp fn deps target => simp [runSub]

theorem writeAndRecord_subscribers (sm : SM) (entries : List (String × Val)) :
    (writeAndRecord sm entries).subscribers = sm.subscribers := rfl

theorem runSub_subscribers_ne (sm : SM) (key : String) (cur : Option Val)
    (s : Subscription) (k2 : String) (h : k2 ≠ key) :
    (runSub sm key cur s).1.subscribers k2 = sm.subscribers k2 := by
  obtain ⟨i, o, act⟩ := s
  cases act with
  | plain b => cases b <;> cases o <;> simp [runSub, updateBucket, h]
  | comp fn deps target =>
      cases o <;> simp [runSub, updateBucket, h, setStateSilent, writeAndRecord]

theorem runSub_state_of_plain (sm : SM) (key : String) (cur : Option Val)
    (s : Subscription) (h : s.act.isPlain = true) :
    (runSub sm key cur s).1.state = sm.state ∧
    (runSub sm key cur s).1.history = sm.history ∧
    (runSub sm key cur s).1.time = sm.time := by
  obtain ⟨i, o, act⟩ := s
  cases act with
  | plain b => cases b <;> cases o <;> simp [runSub]
  | comp fn deps target => simp [SubAct.isPlain] at h

/-- The log of a bucket dispatch depends only on the snapshot and the value
read upfront, never on the intermediate store mutations. -/
theorem notifyFold_log (key : String) (cur : Option Val) :
    ∀ (sm : SM) (l : List Subscription),
      (notifyFold key cur sm l).2 = l.flatMap (subLog key cur)
  | _, [] => rfl
  | sm, s :: rest => by
      simp only [notifyFold, List.flatMap_cons, runSub_log,
        notifyFold_log key cur (runSub sm key cur s).1 rest]

theorem notifyFold_subscribers_ne (key : String) (cur : Option Val) (k2 : String)
    (h : k2 ≠ key) :
    ∀ (sm : SM) (l : List Subscription),
      (notifyFold key cur sm l).1.subscribers k2 = sm.subscribers k2
  | _, [] => rfl
  | sm, s :: rest => by
      simp only [notifyFold,
        notifyFold_subscribers_ne key cur k2 h (runSub sm key cur s).1 rest,
        runSub_subscribers_ne sm key cur s k2 h]

theorem notifyFold_state_of_plain (key : String) (cur : Option Val) :
    ∀ (sm : SM) (l : List Subscription), (∀ s ∈ l, s.act.isPlain = true) →
      (notifyFold key cur sm l).1.state = sm.state ∧
      (notifyFold key cur sm l).1.history = sm.history ∧
      (notifyFold key cur sm l).1.time = sm.time
  | _, [], _ => ⟨rfl, rfl, rfl⟩
  | sm, s :: rest, hp => by
      have h1 := runSub_state_of_plain sm key cur s (hp s (by simp))
      have h2 := notifyFold_state_of_plain key cur (runSub sm key cur s).1 rest
        (fun t ht => hp t (by simp [ht]))
      simp only [notifyFold]
      exact ⟨h1.1 ▸ h2.1, h1.2.1 ▸ h2.2.1, h1.2.2 ▸ h2.2.2⟩

/-- `_notifySubscribers(key)` invokes every subscriber of the bucket with the
value read back from the tree at `key` before the loop. -/
theorem notifyKey_log (sm : SM) (key : String) :
    (notifyKey sm key).2 =
      (sm.subscribers key).flatMap (subLog key (getPath (.obj sm.state) (splitPath key))) :=
  notifyFold_log _ _ _ _

theorem notifyKey_subscribers_ne (sm : SM) (key k2 : String) (h : k2 ≠ key) :
    (notifyKey sm key).1.subscribers k2 = sm.subscribers k2 :=
  notifyFold_subscribers_ne _ _ _ h _ _

theorem notifyKey_state_of_plain (sm : SM) (key : String)
    (hp : ∀ s ∈ sm.subscribers key, s.act.isPlain = true) :
    (notifyKey sm key).1.state = sm.state ∧
    (notifyKey sm key).1.history = sm.history ∧
    (notifyKey sm key).1.time = sm.time :=
  notifyFold_state_of_plain _ _ _ _ hp

theorem flatMapCongr {α β : Type} (L : List α) (f g : α → List β)
    (h : ∀ x ∈ L, f x = g x) : L.flatMap f = L.flatMap g := by
  induction L with
  | nil => rfl
  | cons x rest ih =>
      simp only [List.flatMap_cons]
      rw [h x (by simp), ih (fun y hy => h y (by simp [hy]))]

/-- Plain subscribers everywhere on a list of keys. -/
abbrev plainOn (sm : SM) (ks : List String) : Prop :=
  ∀ k ∈ ks, ∀ s ∈ sm.subscribers k, s.act.isPlain = true

/-- Sequential notification of pairwise-distinct keys whose buckets hold only
plain subscribers: the state never moves, and each key's bucket is dispatched
as registered, against the value read from the (unchanged) tree. -/
theorem notifyAll_plain :
    ∀ (sm : SM) (ks : List String), ks.Nodup → plainOn sm ks →
      (notifyAll sm ks).1.state = sm.state ∧
      (notifyAll sm ks).2 = ks.flatMap (fun k =>
        (sm.subscribers k).flatMap (subLog k (getPath (.obj sm.state) (splitPath k))))
  | _, [], _, _ => ⟨rfl, rfl⟩
  | sm, k :: rest, hnd, hp => by
      have hpk : ∀ s ∈ sm.subscribers k, s.act.isPlain = true := hp k (by simp)
      have hstate := notifyKey_state_of_plain sm k hpk
      have hsub : ∀ k2 ∈ rest, (notifyKey sm k).1.subscribers k2 = sm.subscribers k2 := by
        intro k2 hk2
        have hne : k2 ≠ k := by
          intro hh
          subst hh
          exact (List.nodup_cons.mp hnd).1 hk2
        exact notifyKey_subscribers_ne sm k k2 hne
      have hp2 : plainOn (notifyKey sm k).1 rest := by
        intro k2 hk2 s hs
        exact hp k2 (by simp [hk2]) s (by rwa [hsub k2 hk2] at hs)
      have ih := notifyAll_plain (notifyKey sm k).1 rest (List.nodup_cons.mp hnd).2 hp2
      constructor
      · simp only [notifyAll]
        rw [ih.1, hstate.1]
      · simp only [notifyAll, List.flatMap_cons]
        rw [ih.2, notifyKey_log]
        congr 1
        apply flatMapCongr
        intro k2 hk2
        rw [hsub k2 hk2, hstate.1]

theorem subLog_key (k : String) (cur : Option Val) (s : Subscription) (ev : SMLog)
    (h : ev ∈ subLog k cur s) : SMLog.key ev = k := by
  obtain ⟨i, o, act⟩ := s
  cases act with
  | plain b =>
      cases b
      · simp [subLog] at h
        subst h
        rfl
      · simp [subLog] at h
        rcases h with rfl | rfl <;> rfl
  | comp f d t =>
      simp [subLog] at h
      subst h
      rfl

theorem notified_mem_subLog (k : String) (cur : Option Val) (s : Subscription) :
    SMLog.notified s.id k cur ∈ subLog k cur s := by
  obtain ⟨i, o, act⟩ := s
  cases act with
  | plain b => cases b <;> simp [subLog]
  | comp f d t => simp [subLog]

theorem errLogged_mem_subLog (k : String) (cur : Option Val) (s : Subscription)
    (h : s.act = .plain true) : SMLog.errLogged s.id k ∈ subLog k cur s := by
  simp [subLog, h]

/-- Every log event of a multi-key notification carries one of the notified
keys. -/
theorem notifyAll_key : ∀ (sm : SM) (ks : List String) (ev : SMLog),
    ev ∈ (notifyAll sm ks).2 → SMLog.key ev ∈ ks
  | _, [], _, h => absurd h (by simp [notifyAll])
  | sm, k :: rest, ev, h => by
      simp only [notifyAll, List.mem_append] at h
      rcases h with h | h
      · rw [notifyKey_log] at h
        obtain ⟨s, _, hev⟩ := List.mem_flatMap.mp h
        simp [subLog_key k _ s ev hev]
      · simp [notifyAll_key _ rest ev h]

/-- C1: a bulk `setState` applies every path write to the tree before any
subscriber notification fires; it then performs one notification pass per
distinct written path, and every notified subscriber receives the value read
back from the tree at its exact subscribed path after all writes — also when
the bulk update rewrote an ancestor of a nested path. -/
theorem C1_bulk_setState_atomic (sm : SM) (entries : List (String × Val))
    (hnd : (entries.map Prod.fst).Nodup)
    (hp : plainOn sm (entries.map Prod.fst)) :
    (setStateBulk sm entries false).1.state =
      entries.foldl (fun s kv => setPath s (splitPath kv.1) kv.2) sm.state ∧
    (setStateBulk sm entries false).2 =
      (entries.map Prod.fst).flatMap (fun k =>
        (sm.subscribers k).flatMap (subLog k
          (getPath (.obj (entries.foldl (fun s kv => setPath s (splitPath kv.1) kv.2) sm.state))
            (splitPath k)))) := by
  have hunf : setStateBulk sm entries false
      = notifyAll (writeAndRecord sm entries) (entries.map Prod.fst) := rfl
  have hkey := notifyAll_plain (writeAndRecord sm entries) (entries.map Prod.fst) hnd hp
  rw [hunf]
  exact ⟨hkey.1, hkey.2⟩

/-- Witness for C1: the bulk update rewrites the `preferences` object and the
nested `"preferences.reducedMotion"` path in one call; the subscriber on the
nested path is notified once, with the value read back from the final tree. -/
theorem C1_bulk_setState_atomic_witness :
    ((entriesC1.map Prod.fst).Nodup ∧ plainOn smC1 (entriesC1.map Prod.fst)) ∧
    ((setStateBulk smC1 entriesC1 false).1.state =
        entriesC1.foldl (fun s kv => setPath s (splitPath kv.1) kv.2) smC1.state ∧
      (setStateBulk smC1 entriesC1 false).2 =
        (entriesC1.map Prod.fst).flatMap (fun k =>
          (smC1.subscribers k).flatMap (subLog k
            (getPath (.obj (entriesC1.foldl (fun s kv => setPath s (splitPath kv.1) kv.2) smC1.state))
              (splitPath k))))) :=
  ⟨⟨by decide, by decide⟩, C1_bulk_setState_atomic smC1 entriesC1 (by decide) (by decide)⟩

/-- C7: state subscriptions are keyed by the exact subscribed string: any
event logged by a single-path write carries that exact path; any event
logged by a bulk write carries one of the written paths; and every
subscriber registered on a written path is notified. -/
theorem C7_exact_path_subscriptions :
    (∀ (sm : SM) (k : String) (v : Val) (ev : SMLog),
        ev ∈ (setState sm k v false).2 → SMLog.key ev = k) ∧
    (∀ (sm : SM) (entries : List (String × Val)) (ev : SMLog),
        ev ∈ (setStateBulk sm entries false).2 → SMLog.key ev ∈ entries.map Prod.fst) ∧
    (∀ (sm : SM) (k : String) (v : Val) (s : Subscription), s ∈ sm.subscribers k →
        SMLog.notified s.id k (getPath (.obj (setPath sm.state (splitPath k) v)) (splitPath k))
          ∈ (setState sm k v false).2) := by
  refine ⟨?_, ?_, ?_⟩
  · intro sm k v ev hev
    have hunf : setState sm k v false = notifyKey (writeAndRecord sm [(k, v)]) k := rfl
    rw [hunf, notifyKey_log] at hev
    obtain ⟨s, _, h2⟩ := List.mem_flatMap.mp hev
    exact subLog_key _ _ _ _ h2
  · intro sm entries ev hev
    have hunf : setStateBulk sm entries false
        = notifyAll (writeAndRecord sm entries) (entries.map Prod.fst) := rfl
    rw [hunf] at hev
    exact notifyAll_key _ _ _ hev
  · intro sm k v s hs
    have hunf : setState sm k v false = notifyKey (writeAndRecord sm [(k, v)]) k := rfl
    rw [hunf, notifyKey_log]
    exact List.mem_flatMap.mpr ⟨s, hs, notified_mem_subLog k _ s⟩

/-- Witness for C7: writing `"preferences.reducedMotion"` on a store that has
subscribers on both `"preferences"` and `"preferences.reducedMotion"`: the
logged event carries the exact written path (so the `"preferences"`
subscriber, id 1, is not among the notified), and the exact-path subscriber
(id 2) is notified. -/
theorem C7_exact_path_subscriptions_witness :
    SMLog.key (SMLog.notified 2 "preferences.reducedMotion" (some (.vbool true)))
        = "preferences.reducedMotion" ∧
    SMLog.notified 2 "preferences.reducedMotion" (some (.vbool true))
        ∈ (setState smC7 "preferences.reducedMotion" (.vbool true) false).2 :=
  ⟨C7_exact_path_subscriptions.1 smC7 "preferences.reducedMotion" (.vbool true)
      (SMLog.notified 2 "preferences.reducedMotion" (some (.vbool true)))
      (show _ ∈ [SMLog.notified 2 "preferences.reducedMotion" (some (.vbool true))] from
        List.Mem.head _),
   C7_exact_path_subscriptions.2.2 smC7 "preferences.reducedMotion" (.vbool true)
      ⟨2, false, .plain false⟩
      (show _ ∈ [Subscription.mk 2 false (.plain false)] from List.Mem.head _)⟩

/-! ### Lemmas about the event bus sort and dispatch -/

theorem mem_insStable (h : Handler) : ∀ (l : List Handler) (x : Handler),
    x ∈ insStable h l ↔ x = h ∨ x ∈ l
  | [], x => by simp [insStable]
  | a :: rest, x => by
      by_cases hp : h.priority > a.priority
      · rw [insStable, if_pos hp]
        simp [List.mem_cons]
      · rw [insStable, if_neg hp]
        simp only [List.mem_cons, mem_insStable h rest x]
        tauto

theorem insStable_perm (h : Handler) : ∀ (l : List Handler), (insStable h l).Perm (h :: l)
  | [] => by simp [insStable]
  | a :: rest => by
      by_cases hp : h.priority > a.priority
      · rw [insStable, if_pos hp]
      · rw [insStable, if_neg hp]
        exact ((insStable_perm h rest).cons a).trans (List.Perm.swap h a rest)

theorem foldl_insStable_perm : ∀ (l acc : List Handler),
    (l.foldl (fun acc h => insStable h acc) acc).Perm (acc ++ l)
  | [], acc => by simp
  | h :: rest, acc => by
      simp only [List.foldl_cons]
      refine (foldl_insStable_perm rest (insStable h acc)).trans ?_
      refine (List.Perm.append (insStable_perm h acc) (List.Perm.refl rest)).trans ?_
      exact List.perm_middle.symm

/-- The ECMAScript sort is a permutation of the bucket. -/
theorem sortByPriority_perm (l : List Handler) : (sortByPriority l).Perm l := by
  simpa [sortByPriority] using foldl_insStable_perm l []

theorem insStable_sorted (h : Handler) : ∀ (l : List Handler),
    l.Pairwise (fun a b => b.priority ≤ a.priority) →
    (insStable h l).Pairwise (fun a b => b.priority ≤ a.priority)
  | [], _ => by simp [insStable]
  | a :: rest, hs => by
      rw [List.pairwise_cons] at hs
      by_cases hp : h.priority > a.priority
      · rw [insStable, if_pos hp]
        refine List.pairwise_cons.mpr ⟨?_, List.pairwise_cons.mpr ⟨hs.1, hs.2⟩⟩
        intro b hb
        rcases List.mem_cons.mp hb with rfl | hb2
        · exact le_of_lt hp
        · exact (hs.1 b hb2).trans (le_of_lt hp)
      · rw [insStable, if_neg hp]
        rw [not_lt] at hp
        refine List.pairwise_cons.mpr ⟨?_, insStable_sorted h rest hs.2⟩
        intro b hb
        rcases (mem_insStable h rest b).mp hb with rfl | hb2
        · exact hp
        · exact hs.1 b hb2

theorem foldl_insStable_sorted : ∀ (l acc : List Handler),
    acc.Pairwise (fun a b => b.priority ≤ a.priority) →
    (l.foldl (fun acc h => insStable h acc) acc).Pairwise (fun a b => b.priority ≤ a.priority)
  | [], _, ha => ha
  | h :: rest, acc, ha => by
      simp only [List.foldl_cons]
      exact foldl_insStable_sorted rest _ (insStable_sorted h acc ha)

/-- The sorted bucket is in descending priority order. -/
theorem sortByPriority_sorted (l : List Handler) :
    (sortByPriority l).Pairwise (fun a b => b.priority ≤ a.priority) :=
  foldl_insStable_sorted l [] (by simp)

theorem insStable_filter (h : Handler) (p : Int) : ∀ (l : List Handler),
    l.Pairwise (fun a b => b.priority ≤ a.priority) →
    (insStable h l).filter (fun x => x.priority == p) =
      (if h.priority = p then (l.filter (fun x => x.priority == p)) ++ [h]
       else l.filter (fun x => x.priority == p))
  | [], _ => by
      by_cases hp : h.priority = p <;> simp [insStable, List.filter_cons, hp]
  | a :: rest, hs => by
      rw [List.pairwise_cons] at hs
      by_cases hgt : h.priority > a.priority
      · rw [insStable, if_pos hgt]
        by_cases hhp : h.priority = p
        · have hfe : (a :: rest).filter (fun x => x.priority == p) = [] := by
            rw [List.filter_eq_nil_iff]
            intro b hb
            simp only [beq_iff_eq]
            rcases List.mem_cons.mp hb with rfl | hb2
            · exact ne_of_lt (hhp ▸ hgt)
            · exact ne_of_lt (lt_of_le_of_lt (hs.1 b hb2) (hhp ▸ hgt))
          rw [if_pos hhp, hfe]
          rw [List.filter_cons, if_pos (by simp [hhp]), hfe]
          rfl
        · rw [if_neg hhp]
          rw [List.filter_cons, if_neg (by simp [hhp])]
      · rw [insStable, if_neg hgt]
        have ih := insStable_filter h p rest hs.2
        by_cases hhp : h.priority = p
        · rw [if_pos hhp] at ih ⊢
          by_cases hap : a.priority = p <;>
            simp [List.filter_cons, hap, ih]
        · rw [if_neg hhp] at ih ⊢
          by_cases hap : a.priority = p <;>
            simp [List.filter_cons, hap, ih]

theorem foldl_insStable_filter (p : Int) : ∀ (l acc : List Handler),
    acc.Pairwise (fun a b => b.priority ≤ a.priority) →
    (l.foldl (fun acc h => insStable h acc) acc).filter (fun x => x.priority == p)
      = acc.filter (fun x => x.priority == p) ++ l.filter (fun x => x.priority == p)
  | [], acc, _ => by simp
  | h :: rest, acc, ha => by
      simp only [List.foldl_cons]
      rw [foldl_insStable_filter p rest (insStable h acc) (insStable_sorted h acc ha),
        insStable_filter h p acc ha]
      by_cases hhp : h.priority = p
      · rw [if_pos hhp, List.filter_cons, if_pos (by simp [hhp])]
        simp
      · rw [if_neg hhp, List.filter_cons, if_neg (by simp [hhp])]

/-- Stability of the sort: handlers of any fixed priority keep their
registration order. -/
theorem sortByPriority_filter (l : List Handler) (p : Int) :
    (sortByPriority l).filter (fun x => x.priority == p)
      = l.filter (fun x => x.priority == p) := by
  simpa [sortByPriority] using foldl_insStable_filter p l [] (by simp)

theorem foldl_append_flatMap {α β : Type} (f : α → List β) : ∀ (l : List α) (acc : List β),
    l.foldl (fun a h => a ++ f h) acc = acc ++ l.flatMap f
  | [], acc => by simp
  | x :: rest, acc => by
      simp only [List.foldl_cons, List.flatMap_cons]
      rw [foldl_append_flatMap f rest (acc ++ f x)]
      simp

theorem handleEmission_eq (l : List Handler) (env : Envelope) :
    handleEmission l env = (sortByPriority l).flatMap (invokeHandler env) := by
  simpa [handleEmission] using foldl_append_flatMap (invokeHandler env) (sortByPriority l) []

theorem mem_handleEmission_of (l : List Handler) (env : Envelope) (h : Handler)
    (hm : h ∈ l) (ev : BusLog) (hev : ev ∈ invokeHandler env h) :
    ev ∈ handleEmission l env := by
  rw [handleEmission_eq]
  exact List.mem_flatMap.mpr ⟨h, (sortByPriority_perm l).mem_iff.mpr hm, hev⟩

/-- C3: `emit` delivers to the persistent bucket and then to the once bucket,
each sorted; the sort is a descending-priority, registration-stable
permutation; and the once bucket is empty afterwards. -/
theorem C3_emit_dispatch_order (b : Bus) (e : String) (data : Val) (now : Nat) (src : String) :
    (Bus.emit b e data now src).2 =
      (sortByPriority (b.events e)).flatMap (invokeHandler ⟨e, data, now, src⟩) ++
        (sortByPriority (b.onceEvents e)).flatMap (invokeHandler ⟨e, data, now, src⟩) ∧
    (Bus.emit b e data now src).1.onceEvents e = [] ∧
    (∀ l : List Handler, (sortByPriority l).Pairwise (fun a b => b.priority ≤ a.priority)) ∧
    (∀ l : List Handler, (sortByPriority l).Perm l) ∧
    (∀ (l : List Handler) (p : Int),
        (sortByPriority l).filter (fun x => x.priority == p)
          = l.filter (fun x => x.priority == p)) := by
  refine ⟨?_, ?_, sortByPriority_sorted, sortByPriority_perm, sortByPriority_filter⟩
  · show handleEmission (b.events e) ⟨e, data, now, src⟩ ++
        handleEmission (b.onceEvents e) ⟨e, data, now, src⟩ = _
    rw [handleEmission_eq, handleEmission_eq]
  · simp [Bus.emit]

theorem called_mem_invokeHandler (env : Envelope) (h : Handler) (i : Nat) (t : Bool)
    (hcb : h.cb = .fn i t) : BusLog.called i env ∈ invokeHandler env h := by
  cases t <;> simp [invokeHandler, hcb]

theorem errLogged_mem_invokeHandler (env : Envelope) (h : Handler) (i : Nat)
    (hcb : h.cb = .fn i true) : BusLog.errLogged i ∈ invokeHandler env h := by
  simp [invokeHandler, hcb]

theorem errLogged_mem_invokeHandler_notFn (env : Envelope) (h : Handler) (i : Nat)
    (hcb : h.cb = .notFn i) : BusLog.errLogged i ∈ invokeHandler env h := by
  simp [invokeHandler, hcb]

/-- C6: a callback that throws during a dispatch is caught and logged at the
dispatch site, and every other listener/subscriber registered for the same
event name or state path still runs — for the bus (both registries) and for
the state store. -/
theorem C6_callback_faults_isolated :
    (∀ (b : Bus) (e : String) (d : Val) (n : Nat) (src : String) (h : Handler),
        h ∈ b.events e ∨ h ∈ b.onceEvents e → ∀ (i : Nat) (t : Bool), h.cb = .fn i t →
        BusLog.called i ⟨e, d, n, src⟩ ∈ (Bus.emit b e d n src).2 ∧
        (t = true → BusLog.errLogged i ∈ (Bus.emit b e d n src).2)) ∧
    (∀ (sm : SM) (k : String) (v : Val) (s : Subscription), s ∈ sm.subscribers k →
        SMLog.notified s.id k (getPath (.obj (setPath sm.state (splitPath k) v)) (splitPath k))
          ∈ (setState sm k v false).2 ∧
        (s.act = .plain true → SMLog.errLogged s.id k ∈ (setState sm k v false).2)) := by
  constructor
  · intro b e d n src h hm i t hcb
    have hlog : (Bus.emit b e d n src).2
        = handleEmission (b.events e) ⟨e, d, n, src⟩
            ++ handleEmission (b.onceEvents e) ⟨e, d, n, src⟩ := rfl
    constructor
    · rw [hlog]
      rcases hm with hm | hm
      · exact List.mem_append_left _
          (mem_handleEmission_of _ _ h hm _ (called_mem_invokeHandler _ h i t hcb))
      · exact List.mem_append_right _
          (mem_handleEmission_of _ _ h hm _ (called_mem_invokeHandler _ h i t hcb))
    · intro ht
      subst ht
      rw [hlog]
      rcases hm with hm | hm
      · exact List.mem_append_left _
          (mem_handleEmission_of _ _ h hm _ (errLogged_mem_invokeHandler _ h i hcb))
      · exact List.mem_append_right _
          (mem_handleEmission_of _ _ h hm _ (errLogged_mem_invokeHandler _ h i hcb))
  · intro sm k v s hs
    have hunf : setState sm k v false = notifyKey (writeAndRecord sm [(k, v)]) k := rfl
    constructor
    · rw [hunf, notifyKey_log]
      exact List.mem_flatMap.mpr ⟨s, hs, notified_mem_subLog k _ s⟩
    · intro hact
      rw [hunf, notifyKey_log]
      exact List.mem_flatMap.mpr ⟨s, hs, errLogged_mem_subLog k _ s hact⟩

/-- Witness for C6: on the bus, the throwing listener (id 1) is logged and
its sibling (id 2) and the once listener (id 3) still run; on the store, the
throwing subscriber (id 1) is logged and its sibling (id 2) is still
notified. -/
theorem C6_callback_faults_isolated_witness :
    BusLog.called 2 ⟨"e", .vnull, 0, "unknown"⟩ ∈ (Bus.emit busC6 "e" .vnull 0 "unknown").2 ∧
    BusLog.errLogged 1 ∈ (Bus.emit busC6 "e" .vnull 0 "unknown").2 ∧
    BusLog.called 3 ⟨"e", .vnull, 0, "unknown"⟩ ∈ (Bus.emit busC6 "e" .vnull 0 "unknown").2 ∧
    SMLog.notified 2 "k" (some (.vnum 5)) ∈ (setState smC6 "k" (.vnum 5) false).2 ∧
    SMLog.errLogged 1 "k" ∈ (setState smC6 "k" (.vnum 5) false).2 :=
  ⟨(C6_callback_faults_isolated.1 busC6 "e" .vnull 0 "unknown" ⟨.fn 2 false, 0⟩
      (Or.inl (show _ ∈ [Handler.mk (.fn 1 true) 0, Handler.mk (.fn 2 false) 0] from
        List.Mem.tail _ (List.Mem.head _))) 2 false rfl).1,
   (C6_callback_faults_isolated.1 busC6 "e" .vnull 0 "unknown" ⟨.fn 1 true, 0⟩
      (Or.inl (show _ ∈ [Handler.mk (.fn 1 true) 0, Handler.mk (.fn 2 false) 0] from
        List.Mem.head _)) 1 true rfl).2 rfl,
   (C6_callback_faults_isolated.1 busC6 "e" .vnull 0 "unknown" ⟨.fn 3 false, 0⟩
      (Or.inr (show _ ∈ [Handler.mk (.fn 3 false) 0] from List.Mem.head _)) 3 false rfl).1,
   (C6_callback_faults_isolated.2 smC6 "k" (.vnum 5) ⟨2, false, .plain false⟩
      (show _ ∈ [Subscription.mk 1 false (.plain true), Subscription.mk 2 false (.plain false)] from
        List.Mem.tail _ (List.Mem.head _))).1,
   (C6_callback_faults_isolated.2 smC6 "k" (.vnum 5) ⟨1, false, .plain true⟩
      (show _ ∈ [Subscription.mk 1 false (.plain true), Subscription.mk 2 false (.plain false)] from
        List.Mem.head _)).2 rfl⟩

theorem calledCount_append (l1 l2 : List BusLog) (i : Nat) :
    calledCount (l1 ++ l2) i = calledCount l1 i + calledCount l2 i := by
  simp [calledCount, List.filter_append]

theorem calledCount_invoke_ne (env : Envelope) (h : Handler) (i : Nat)
    (hne : Cb.id h.cb ≠ i) : calledCount (invokeHandler env h) i = 0 := by
  obtain ⟨cb, pr⟩ := h
  cases cb with
  | fn j t =>
      have hb : (j == i) = false := by
        simpa [Cb.id] using hne
      cases t <;> simp [invokeHandler, calledCount, List.filter_cons, hb]
  | notFn j => simp [invokeHandler, calledCount, List.filter_cons]

theorem calledCount_flatMap_zero (env : Envelope) (i : Nat) : ∀ (L : List Handler),
    (∀ x ∈ L, Cb.id x.cb ≠ i) → calledCount (L.flatMap (invokeHandler env)) i = 0
  | [], _ => by simp [calledCount]
  | x :: rest, hL => by
      rw [List.flatMap_cons, calledCount_append,
        calledCount_invoke_ne env x i (hL x (List.Mem.head _)),
        calledCount_flatMap_zero env i rest (fun y hy => hL y (List.Mem.tail _ hy))]

theorem calledCount_handleEmission_zero (l : List Handler) (env : Envelope) (i : Nat)
    (h : ∀ x ∈ l, Cb.id x.cb ≠ i) : calledCount (handleEmission l env) i = 0 := by
  rw [handleEmission_eq]
  exact calledCount_flatMap_zero env i _
    (fun x hx => h x ((sortByPriority_perm l).mem_iff.mp hx))

theorem calledCount_invoke_self (env : Envelope) (i : Nat) (t : Bool) (pr : Int) :
    calledCount (invokeHandler env ⟨.fn i t, pr⟩) i = 1 := by
  cases t <;> simp [invokeHandler, calledCount, List.filter_cons]

/-- C8: a callback registered with `once(e, cb)` and hit by two `emit(e, …)`
calls is entered exactly once, with the envelope of the first emission; the
second emission does not call it at all. -/
theorem C8_once_listener_single_invocation (b : Bus) (e : String) (i : Nat) (t : Bool)
    (pr : Int) (d1 d2 : Val) (n1 n2 : Nat) (s1 s2 : String)
    (hoe : b.onceEvents e = [])
    (hids : ∀ h ∈ b.events e, Cb.id h.cb ≠ i) :
    calledCount (Bus.emit (Bus.once b e (.fn i t) pr).1 e d1 n1 s1).2 i = 1 ∧
    BusLog.called i ⟨e, d1, n1, s1⟩ ∈ (Bus.emit (Bus.once b e (.fn i t) pr).1 e d1 n1 s1).2 ∧
    calledCount
      (Bus.emit (Bus.emit (Bus.once b e (.fn i t) pr).1 e d1 n1 s1).1 e d2 n2 s2).2 i = 0 := by
  have hb1o : (Bus.once b e (.fn i t) pr).1.onceEvents e = [⟨.fn i t, pr⟩] := by
    simp [Bus.once, updateHB, hoe]
  have hlog1 : (Bus.emit (Bus.once b e (.fn i t) pr).1 e d1 n1 s1).2
      = handleEmission (b.events e) ⟨e, d1, n1, s1⟩
          ++ handleEmission [⟨.fn i t, pr⟩] ⟨e, d1, n1, s1⟩ := by
    show handleEmission ((Bus.once b e (.fn i t) pr).1.events e) _
        ++ handleEmission ((Bus.once b e (.fn i t) pr).1.onceEvents e) _ = _
    rw [hb1o]
    rfl
  refine ⟨?_, ?_, ?_⟩
  · rw [hlog1, calledCount_append, calledCount_handleEmission_zero _ _ _ hids]
    rw [show handleEmission [(⟨.fn i t, pr⟩ : Handler)] ⟨e, d1, n1, s1⟩
          = invokeHandler ⟨e, d1, n1, s1⟩ ⟨.fn i t, pr⟩ from rfl]
    rw [calledCount_invoke_self]
  · rw [hlog1]
    exact List.mem_append_right _
      (mem_handleEmission_of _ _ ⟨.fn i t, pr⟩ (List.Mem.head _) _
        (called_mem_invokeHandler _ _ i t rfl))
  · have hb2o : (Bus.emit (Bus.once b e (.fn i t) pr).1 e d1 n1 s1).1.onceEvents e = [] := by
      simp [Bus.emit]
    have hlog2 : (Bus.emit (Bus.emit (Bus.once b e (.fn i t) pr).1 e d1 n1 s1).1 e d2 n2 s2).2
        = handleEmission (b.events e) ⟨e, d2, n2, s2⟩ ++ handleEmission [] ⟨e, d2, n2, s2⟩ := by
      show handleEmission ((Bus.emit (Bus.once b e (.fn i t) pr).1 e d1 n1 s1).1.events e) _
          ++ handleEmission ((Bus.emit (Bus.once b e (.fn i t) pr).1 e d1 n1 s1).1.onceEvents e) _
          = _
      rw [hb2o]
      rfl
    rw [hlog2, calledCount_append, calledCount_handleEmission_zero _ _ _ hids]
    simp [handleEmission, sortByPriority, calledCount]

/-- Witness for C8: a fresh once listener (id 7) next to a persistent
listener (id 2): two emissions call id 7 exactly once, with the first
envelope. -/
theorem C8_once_listener_single_invocation_witness :
    (busC8.onceEvents "e" = [] ∧ ∀ h ∈ busC8.events "e", Cb.id h.cb ≠ 7) ∧
    (calledCount (Bus.emit (Bus.once busC8 "e" (.fn 7 false) 0).1 "e" (.vnum 1) 11 "a").2 7 = 1 ∧
     BusLog.called 7 ⟨"e", .vnum 1, 11, "a"⟩
        ∈ (Bus.emit (Bus.once busC8 "e" (.fn 7 false) 0).1 "e" (.vnum 1) 11 "a").2 ∧
     calledCount
       (Bus.emit (Bus.emit (Bus.once busC8 "e" (.fn 7 false) 0).1 "e" (.vnum 1) 11 "a").1
         "e" (.vnum 2) 12 "b").2 7 = 0) :=
  ⟨⟨rfl, by decide⟩,
   C8_once_listener_single_invocation busC8 "e" 7 false 0 (.vnum 1) (.vnum 2) 11 12 "a" "b"
     rfl (by decide)⟩

theorem removeFirstCb_append_notin (i : Nat) (pr : Int) : ∀ (l : List Handler),
    (∀ h ∈ l, Cb.id h.cb ≠ i) → removeFirstCb (l ++ [⟨.notFn i, pr⟩]) i = l
  | [], _ => by simp [removeFirstCb, Cb.id]
  | a :: rest, hl => by
      have ha : Cb.id a.cb ≠ i := hl a (List.Mem.head _)
      show (if Cb.id a.cb = i then rest ++ [⟨.notFn i, pr⟩]
            else a :: removeFirstCb (rest ++ [⟨.notFn i, pr⟩]) i) = a :: rest
      rw [if_neg ha, removeFirstCb_append_notin i pr rest (fun h hh => hl h (List.Mem.tail _ hh))]

/-- C9: unlike `on`, which raises synchronously for a non-invocable callback,
`once` accepts any callback value: it registers the handler and returns a
working unsubscribe thunk, and the failure surfaces only during a later
`emit`, where it is caught and logged while every other listener still
runs. -/
theorem C9_once_accepts_noninvocable (b : Bus) (e : String) (i : Nat) (pr : Int)
    (d : Val) (n : Nat) (src : String)
    (hids : ∀ h ∈ b.onceEvents e, Cb.id h.cb ≠ i) :
    Bus.on b e (.notFn i) pr = .error "Event callback must be a function" ∧
    (Bus.once b e (.notFn i) pr).1.onceEvents e = b.onceEvents e ++ [⟨.notFn i, pr⟩] ∧
    (Bus.once b e (.notFn i) pr).2 = (e, i) ∧
    (∀ k, (Bus.offOnce (Bus.once b e (.notFn i) pr).1 e i).onceEvents k = b.onceEvents k) ∧
    BusLog.errLogged i ∈ (Bus.emit (Bus.once b e (.notFn i) pr).1 e d n src).2 ∧
    (∀ h ∈ b.events e, ∀ (j : Nat) (t2 : Bool), h.cb = .fn j t2 →
        BusLog.called j ⟨e, d, n, src⟩ ∈ (Bus.emit (Bus.once b e (.notFn i) pr).1 e d n src).2) := by
  have hb1o : (Bus.once b e (.notFn i) pr).1.onceEvents e
      = b.onceEvents e ++ [⟨.notFn i, pr⟩] := by
    simp [Bus.once, updateHB]
  have hlog : (Bus.emit (Bus.once b e (.notFn i) pr).1 e d n src).2
      = handleEmission (b.events e) ⟨e, d, n, src⟩
          ++ handleEmission (b.onceEvents e ++ [⟨.notFn i, pr⟩]) ⟨e, d, n, src⟩ := by
    show handleEmission ((Bus.once b e (.notFn i) pr).1.events e) _
        ++ handleEmission ((Bus.once b e (.notFn i) pr).1.onceEvents e) _ = _
    rw [hb1o]
    rfl
  refine ⟨rfl, hb1o, rfl, ?_, ?_, ?_⟩
  · intro k
    by_cases hk : k = e
    · subst hk
      show (if k = k then removeFirstCb ((Bus.once b k (.notFn i) pr).1.onceEvents k) i
            else _) = _
      rw [if_pos rfl, hb1o, removeFirstCb_append_notin i pr _ hids]
    · show (if k = e then _ else (Bus.once b e (.notFn i) pr).1.onceEvents k) = _
      rw [if_neg hk]
      show (if k = e then _ else b.onceEvents k) = _
      rw [if_neg hk]
  · rw [hlog]
    exact List.mem_append_right _
      (mem_handleEmission_of _ _ ⟨.notFn i, pr⟩ (List.mem_append_right _ (List.Mem.head _)) _
        (errLogged_mem_invokeHandler_notFn _ _ i rfl))
  · intro h hm j t2 hcb
    rw [hlog]
    exact List.mem_append_left _
      (mem_handleEmission_of _ _ h hm _ (called_mem_invokeHandler _ h j t2 hcb))

/-- Witness for C9: registering the non-function value (id 9) via `once`
succeeds while `on` rejects it; the later emission logs the fault and still
calls the persistent listener (id 2). -/
theorem C9_once_accepts_noninvocable_witness :
    (∀ h ∈ busC9.onceEvents "e", Cb.id h.cb ≠ 9) ∧
    Bus.on busC9 "e" (.notFn 9) 0 = .error "Event callback must be a function" ∧
    (Bus.once busC9 "e" (.notFn 9) 0).1.onceEvents "e" = busC9.onceEvents "e" ++ [⟨.notFn 9, 0⟩] ∧
    BusLog.errLogged 9 ∈ (Bus.emit (Bus.once busC9 "e" (.notFn 9) 0).1 "e" .vnull 0 "u").2 ∧
    BusLog.called 2 ⟨"e", .vnull, 0, "u"⟩
      ∈ (Bus.emit (Bus.once busC9 "e" (.notFn 9) 0).1 "e" .vnull 0 "u").2 :=
  ⟨by decide,
   (C9_once_accepts_noninvocable busC9 "e" 9 0 .vnull 0 "u" (by decide)).1,
   (C9_once_accepts_noninvocable busC9 "e" 9 0 .vnull 0 "u" (by decide)).2.1,
   (C9_once_accepts_noninvocable busC9 "e" 9 0 .vnull 0 "u" (by decide)).2.2.2.2.1,
   (C9_once_accepts_noninvocable busC9 "e" 9 0 .vnull 0 "u" (by decide)).2.2.2.2.2
     ⟨.fn 2 false, 0⟩ (show _ ∈ [Handler.mk (.fn 2 false) 0] from List.Mem.head _) 2 false rfl⟩

theorem decide_eq_comm_beq (a b : Nat) : decide (a = b) = (b == a) := by
  by_cases h : a = b
  · subst h
    simp
  · simp [h, Ne.symm h]

theorem runSub_bucket (sm : SM) (key : String) (cur : Option Val) (s : Subscription) :
    (runSub sm key cur s).1.subscribers key =
      (if s.once && SubAct.succeeds s.act then removeSub (sm.subscribers key) s.id
       else sm.subscribers key) := by
  obtain ⟨i, o, act⟩ := s
  cases act with
  | plain b => cases b <;> cases o <;> simp [runSub, SubAct.succeeds, updateBucket]
  | comp f d t =>
      cases o <;> simp [runSub, SubAct.succeeds, updateBucket, setStateSilent, writeAndRecord]

/-- After a bucket dispatch, exactly the `once` subscriptions whose callback
returned normally have been removed from the live bucket. -/
theorem notifyFold_bucket (key : String) (cur : Option Val) : ∀ (sm : SM) (l : List Subscription),
    (notifyFold key cur sm l).1.subscribers key =
      (sm.subscribers key).filter
        (fun t => !(l.any (fun s => s.once && SubAct.succeeds s.act && s.id == t.id)))
  | sm, [] => by simp [notifyFold]
  | sm, s :: rest => by
      show (notifyFold key cur (runSub sm key cur s).1 rest).1.subscribers key = _
      rw [notifyFold_bucket key cur (runSub sm key cur s).1 rest, runSub_bucket]
      by_cases hc : (s.once && SubAct.succeeds s.act) = true
      · rw [if_pos hc]
        unfold removeSub
        rw [List.filter_filter]
        refine List.filter_congr ?_
        intro t _
        simp [List.any_cons, hc, Bool.not_or, decide_eq_comm_beq, Bool.and_comm]
      · rw [if_neg hc]
        refine List.filter_congr ?_
        intro t _
        have hcf : (s.once && SubAct.succeeds s.act) = false := by
          revert hc
          cases s.once && SubAct.succeeds s.act <;> simp
        simp [List.any_cons, hcf]

/-- C10: a state subscription with `once: true` whose callback throws is not
removed by the dispatch (removal happens only after a normal return), so it
is invoked again by the next non-silent write to its path — while a `once`
subscription that returns normally is removed. -/
theorem C10_throwing_once_subscription_kept (sm : SM) (k : String) (v v2 : Val)
    (s : Subscription)
    (hnd : ((sm.subscribers k).map Subscription.id).Nodup)
    (hs : s ∈ sm.subscribers k) (ho : s.once = true) (ha : s.act = .plain true) :
    s ∈ (setState sm k v false).1.subscribers k ∧
    SMLog.notified s.id k (getPath (.obj (setPath sm.state (splitPath k) v)) (splitPath k))
        ∈ (setState sm k v false).2 ∧
    SMLog.errLogged s.id k ∈ (setState sm k v false).2 ∧
    SMLog.notified s.id k
        (getPath (.obj (setPath (setState sm k v false).1.state (splitPath k) v2)) (splitPath k))
        ∈ (setState (setState sm k v false).1 k v2 false).2 ∧
    (∀ s2 ∈ sm.subscribers k, s2.once = true → s2.act = .plain false →
        s2 ∉ (setState sm k v false).1.subscribers k) := by
  have hunf : setState sm k v false = notifyKey (writeAndRecord sm [(k, v)]) k := rfl
  have hbucket : (setState sm k v false).1.subscribers k =
      (sm.subscribers k).filter
        (fun t => !((sm.subscribers k).any
          (fun s2 => s2.once && SubAct.succeeds s2.act && s2.id == t.id))) := by
    rw [hunf]
    exact notifyFold_bucket k _ (writeAndRecord sm [(k, v)]) (sm.subscribers k)
  have hmem : s ∈ (setState sm k v false).1.subscribers k := by
    rw [hbucket]
    refine List.mem_filter.mpr ⟨hs, ?_⟩
    have hany : ((sm.subscribers k).any
        (fun s2 => s2.once && SubAct.succeeds s2.act && s2.id == s.id)) = false := by
      rw [List.any_eq_false]
      intro s2 hs2
      by_cases hid : s2.id = s.id
      · have : s2 = s := List.inj_on_of_nodup_map hnd hs2 hs hid
        subst this
        simp [ha, SubAct.succeeds]
      · simp [hid]
    simp [hany]
  refine ⟨hmem, ?_, ?_, ?_, ?_⟩
  · rw [hunf, notifyKey_log]
    exact List.mem_flatMap.mpr ⟨s, hs, notified_mem_subLog k _ s⟩
  · rw [hunf, notifyKey_log]
    exact List.mem_flatMap.mpr ⟨s, hs, errLogged_mem_subLog k _ s ha⟩
  · have hunf2 : setState (setState sm k v false).1 k v2 false
        = notifyKey (writeAndRecord (setState sm k v false).1 [(k, v2)]) k := rfl
    rw [hunf2, notifyKey_log]
    exact List.mem_flatMap.mpr ⟨s, hmem, notified_mem_subLog k _ s⟩
  · intro s2 hs2 ho2 ha2 hcontra
    rw [hbucket] at hcontra
    have hpred := (List.mem_filter.mp hcontra).2
    have hany : ((sm.subscribers k).any
        (fun t2 => t2.once && SubAct.succeeds t2.act && t2.id == s2.id)) = true :=
      List.any_eq_true.mpr ⟨s2, hs2, by simp [ho2, ha2, SubAct.succeeds]⟩
    rw [hany] at hpred
    simp at hpred

/-- Witness for C10: the throwing once-subscriber (id 1) survives the first
write, is logged, and is notified again by the second write; the normal
once-subscriber (id 2) is removed by the first write. -/
theorem C10_throwing_once_subscription_kept_witness :
    (⟨1, true, .plain true⟩ : Subscription) ∈ (setState smC10 "k" (.vnum 5) false).1.subscribers "k" ∧
    SMLog.errLogged 1 "k" ∈ (setState smC10 "k" (.vnum 5) false).2 ∧
    SMLog.notified 1 "k" (some (.vnum 6))
        ∈ (setState (setState smC10 "k" (.vnum 5) false).1 "k" (.vnum 6) false).2 ∧
    (⟨2, true, .plain false⟩ : Subscription)
        ∉ (setState smC10 "k" (.vnum 5) false).1.subscribers "k" := by
  have h := C10_throwing_once_subscription_kept smC10 "k" (.vnum 5) (.vnum 6)
    ⟨1, true, .plain true⟩ (by decide)
    (show _ ∈ [Subscription.mk 1 true (.plain true), Subscription.mk 2 true (.plain false)] from
      List.Mem.head _) rfl rfl
  exact ⟨h.1, h.2.2.1, h.2.2.2.1,
    h.2.2.2.2 ⟨2, true, .plain false⟩
      (show _ ∈ [Subscription.mk 1 true (.plain true), Subscription.mk 2 true (.plain false)] from
        List.Mem.tail _ (List.Mem.head _)) rfl rfl⟩

/-! ### Lemmas about `batch` -/

theorem addUnique_nodup (ks : List String) (k : String) (h : ks.Nodup) :
    (addUnique ks k).Nodup := by
  unfold addUnique
  by_cases hm : k ∈ ks
  · simp [hm, h]
  · simp [hm, List.nodup_append, h]

theorem runBatchSteps_subscribers : ∀ (steps : List BatchStep) (sm : SM) (ks : List String),
    (runBatchSteps sm ks steps).1.subscribers = sm.subscribers
  | [], _, _ => rfl
  | .abort :: _, _, _ => rfl
  | .write k v silent :: rest, sm, ks => by
      show (runBatchSteps (writeAndRecord sm [(k, v)])
          (if silent then ks else addUnique ks k) rest).1.subscribers = _
      rw [runBatchSteps_subscribers rest _ _]
      rfl

theorem runBatchSteps_keys_nodup : ∀ (steps : List BatchStep) (sm : SM) (ks : List String),
    ks.Nodup → (runBatchSteps sm ks steps).2.1.Nodup
  | [], _, _, h => h
  | .abort :: _, _, _, h => h
  | .write k v silent :: rest, sm, ks, h => by
      show (runBatchSteps (writeAndRecord sm [(k, v)])
          (if silent then ks else addUnique ks k) rest).2.1.Nodup
      cases silent
      · exact runBatchSteps_keys_nodup rest _ _ (addUnique_nodup ks k h)
      · exact runBatchSteps_keys_nodup rest _ _ h

/-- C4: `batch` collapses repeated writes to the same path into a single
notification per distinct changed path, delivered with the path's final
value; the collapsed notifications fire even when the batched function threw
(the flag in the result), and afterwards the normal notification mechanism
is back in place. -/
theorem C4_batch_collapses_notifications (sm : SM) (steps : List BatchStep)
    (hp : plainOn sm (runBatchSteps sm [] steps).2.1) :
    (runBatchSteps sm [] steps).2.1.Nodup ∧
    (batch sm steps).2.1 = (runBatchSteps sm [] steps).2.1.flatMap (fun k =>
        (sm.subscribers k).flatMap (subLog k
          (getPath (.obj (runBatchSteps sm [] steps).1.state) (splitPath k)))) ∧
    (batch sm steps).1.state = (runBatchSteps sm [] steps).1.state ∧
    (batch sm steps).2.2 = (runBatchSteps sm [] steps).2.2 ∧
    (∀ (k2 : String) (v2 : Val), (setState (batch sm steps).1 k2 v2 false).2
        = ((batch sm steps).1.subscribers k2).flatMap (subLog k2
            (getPath (.obj (setPath (batch sm steps).1.state (splitPath k2) v2))
              (splitPath k2)))) := by
  have hnd : (runBatchSteps sm [] steps).2.1.Nodup :=
    runBatchSteps_keys_nodup steps sm [] (by simp)
  have hp2 : plainOn (runBatchSteps sm [] steps).1 (runBatchSteps sm [] steps).2.1 := by
    intro k hk s hs
    rw [runBatchSteps_subscribers] at hs
    exact hp k hk s hs
  have hall := notifyAll_plain (runBatchSteps sm [] steps).1 (runBatchSteps sm [] steps).2.1
    hnd hp2
  have hunf : batch sm steps
      = ((notifyAll (runBatchSteps sm [] steps).1 (runBatchSteps sm [] steps).2.1).1,
         (notifyAll (runBatchSteps sm [] steps).1 (runBatchSteps sm [] steps).2.1).2,
         (runBatchSteps sm [] steps).2.2) := rfl
  refine ⟨hnd, ?_, ?_, ?_, ?_⟩
  · rw [hunf]
    show (notifyAll (runBatchSteps sm [] steps).1 (runBatchSteps sm [] steps).2.1).2 = _
    rw [hall.2]
    refine flatMapCongr _ _ _ ?_
    intro k _
    rw [runBatchSteps_subscribers]
  · rw [hunf]
    exact hall.1
  · rw [hunf]
  · intro k2 v2
    exact notifyKey_log _ _

/-- Witness for C4: the spec example — `setState("k",1)` then `setState("k",2)`
inside a batch whose body then throws: the subscriber on `"k"` is notified
exactly once, with value `2`, and the exception is reported to the caller. -/
theorem C4_batch_collapses_notifications_witness :
    plainOn smC4 (runBatchSteps smC4 [] stepsC4).2.1 ∧
    (batch smC4 stepsC4).2.1 = [SMLog.notified 1 "k" (some (.vnum 2))] ∧
    (batch smC4 stepsC4).2.2 = true := by
  have h := C4_batch_collapses_notifications smC4 stepsC4 (by decide)
  refine ⟨by decide, ?_, ?_⟩
  · rw [h.2.1]
    rfl
  · rw [h.2.2.2.1]
    rfl

/-! ### Lemmas about `computed` -/

theorem foldl_subscribe_state : ∀ (deps : List String) (sm : SM) (sub : Subscription),
    (deps.foldl (fun s d => (subscribe s d sub false).1) sm).state = sm.state
  | [], _, _ => rfl
  | d :: rest, sm, sub => by
      simp only [List.foldl_cons]
      exact foldl_subscribe_state rest _ sub

theorem foldl_subscribe_bucket_notmem : ∀ (deps : List String) (sm : SM) (sub : Subscription)
    (k : String), k ∉ deps →
    (deps.foldl (fun s d => (subscribe s d sub false).1) sm).subscribers k = sm.subscribers k
  | [], _, _, _, _ => rfl
  | d :: rest, sm, sub, k, hk => by
      simp only [List.foldl_cons]
      rw [foldl_subscribe_bucket_notmem rest _ sub k (fun h => hk (List.Mem.tail _ h))]
      show (if k = d then _ else sm.subscribers k) = sm.subscribers k
      rw [if_neg (fun h => hk (by rw [h]; exact List.Mem.head _))]

theorem foldl_subscribe_bucket_mem : ∀ (deps : List String) (sm : SM) (sub : Subscription)
    (k : String), k ∈ deps → deps.Nodup →
    (deps.foldl (fun s d => (subscribe s d sub false).1) sm).subscribers k
      = sm.subscribers k ++ [sub]
  | [], _, _, _, hk, _ => absurd hk (List.not_mem_nil _)
  | d :: rest, sm, sub, k, hk, hnd => by
      simp only [List.foldl_cons]
      by_cases hkd : k = d
      · subst hkd
        rw [foldl_subscribe_bucket_notmem rest _ sub k (List.nodup_cons.mp hnd).1]
        show (if k = k then sm.subscribers k ++ [sub] else _) = _
        rw [if_pos rfl]
      · have hkr : k ∈ rest := by
          rcases List.mem_cons.mp hk with h | h
          · exact absurd h hkd
          · exact h
        rw [foldl_subscribe_bucket_mem rest _ sub k hkr (List.nodup_cons.mp hnd).2]
        show (if k = d then _ else sm.subscribers k) ++ [sub] = _
        rw [if_neg hkd]

/-- C5: `computed(fn, deps, target)` performs one immediate computation so
`target` holds `fn` of the current dependency values right after
registration; a subsequent non-silent write to a dependency recomputes
`target` to `fn` of the current dependency values; and that whole write
produces exactly one notification — the dependency's own — so no subscriber
is retriggered by the silent write to `target`. -/
theorem C5_computed_recomputes_silently (sm : SM) (fn : List (Option Val) → Val)
    (deps : List String) (target : String) (cid : Nat) (dep : String) (v : Val)
    (hsub : ∀ d, sm.subscribers d = [])
    (hdep : dep ∈ deps) (hnd : deps.Nodup)
    (hdisj : ∀ d ∈ deps,
      ¬ splitPath d <+: splitPath target ∧ ¬ splitPath target <+: splitPath d) :
    getPath (.obj (computed sm fn deps target cid).state) (splitPath target)
      = some (fn (deps.map (fun d =>
          getPath (.obj (computed sm fn deps target cid).state) (splitPath d)))) ∧
    getPath (.obj (setState (computed sm fn deps target cid) dep v false).1.state)
        (splitPath target)
      = some (fn (deps.map (fun d =>
          getPath (.obj (setState (computed sm fn deps target cid) dep v false).1.state)
            (splitPath d)))) ∧
    (setState (computed sm fn deps target cid) dep v false).2
      = [SMLog.notified cid dep
          (getPath (.obj (setPath (computed sm fn deps target cid).state (splitPath dep) v))
            (splitPath dep))] := by
  have htne : splitPath target ≠ [] := by
    intro h
    exact (hdisj dep hdep).2 (h ▸ List.nil_prefix)
  have hbdep : (deps.foldl
        (fun s d => (subscribe s d ⟨cid, false, .comp fn deps target⟩ false).1) sm).subscribers dep
      = [⟨cid, false, .comp fn deps target⟩] := by
    rw [foldl_subscribe_bucket_mem deps sm _ dep hdep hnd, hsub dep]
    rfl
  have hW : (writeAndRecord (computed sm fn deps target cid) [(dep, v)]).subscribers dep
      = [⟨cid, false, .comp fn deps target⟩] := hbdep
  have hstep : setState (computed sm fn deps target cid) dep v false
      = (setStateSilent (writeAndRecord (computed sm fn deps target cid) [(dep, v)]) target
          (fn (deps.map (fun d =>
            getPath (.obj (writeAndRecord (computed sm fn deps target cid) [(dep, v)]).state)
              (splitPath d)))),
         [SMLog.notified cid dep
           (getPath (.obj (writeAndRecord (computed sm fn deps target cid) [(dep, v)]).state)
             (splitPath dep))]) := by
    show notifyFold dep
        (getPath (.obj (writeAndRecord (computed sm fn deps target cid) [(dep, v)]).state)
          (splitPath dep))
        (writeAndRecord (computed sm fn deps target cid) [(dep, v)])
        ((writeAndRecord (computed sm fn deps target cid) [(dep, v)]).subscribers dep) = _
    rw [hW]
    rfl
  refine ⟨?_, ?_, ?_⟩
  · show getPath (.obj (setPath
        (deps.foldl (fun s d => (subscribe s d ⟨cid, false, .comp fn deps target⟩ false).1) sm).state
        (splitPath target)
        (fn (deps.map (fun d =>
          getPath (.obj (deps.foldl
            (fun s d => (subscribe s d ⟨cid, false, .comp fn deps target⟩ false).1) sm).state)
            (splitPath d)))))) (splitPath target) = _
    rw [get_set_same _ _ _ htne]
    refine congrArg some (congrArg fn (List.map_congr_left ?_).symm)
    intro d hd
    show getPath (.obj (setPath _ (splitPath target) _)) (splitPath d) = _
    exact get_set_disjoint _ _ _ _ (hdisj d hd).1 (hdisj d hd).2
  · rw [hstep]
    show getPath (.obj (setPath
        (writeAndRecord (computed sm fn deps target cid) [(dep, v)]).state (splitPath target)
        (fn (deps.map (fun d =>
          getPath (.obj (writeAndRecord (computed sm fn deps target cid) [(dep, v)]).state)
            (splitPath d)))))) (splitPath target) = _
    rw [get_set_same _ _ _ htne]
    refine congrArg some (congrArg fn (List.map_congr_left ?_).symm)
    intro d hd
    show getPath (.obj (setPath _ (splitPath target) _)) (splitPath d) = _
    exact get_set_disjoint _ _ _ _ (hdisj d hd).1 (hdisj d hd).2
  · rw [hstep]
    rfl

/-- Witness for C5: `computed` over `x = 2`, `y = 3` populates `z = 5`
immediately; writing `x = 10` recomputes `z = 13` silently, and the write
produces exactly the one notification for `"x"`. -/
theorem C5_computed_recomputes_silently_witness :
    getPath (.obj (computed smC5 fnC5 ["x", "y"] "z" 0).state) (splitPath "z")
        = some (.vnum 5) ∧
    getPath (.obj (setState (computed smC5 fnC5 ["x", "y"] "z" 0) "x" (.vnum 10) false).1.state)
        (splitPath "z") = some (.vnum 13) ∧
    (setState (computed smC5 fnC5 ["x", "y"] "z" 0) "x" (.vnum 10) false).2
        = [SMLog.notified 0 "x" (some (.vnum 10))] := by
  have h := C5_computed_recomputes_silently smC5 fnC5 ["x", "y"] "z" 0 "x" (.vnum 10)
    (fun _ => rfl) (by decide) (by decide) (by decide)
  exact ⟨h.1, h.2.1, h.2.2⟩

/-! ### Lemmas about the heap model -/

theorem hget_hset_ne (h : Heap) (a b : Nat) (o : HObj) (hab : b ≠ a) :
    hget (hset h b o) a = hget h a := by
  simp [hget, hset, List.getD, List.getElem?_set_ne hab]

theorem hset_length (h : Heap) (a : Nat) (o : HObj) :
    (hset h a o).cells.length = h.cells.length := by
  simp [hset]

theorem hget_alloc_lt (h : Heap) (o : HObj) (a : Nat) (ha : a < h.cells.length) :
    hget (alloc h o).1 a = hget h a := by
  simp only [alloc, hget]
  exact List.getD_append _ _ _ _ ha

theorem hget_alloc_self (h : Heap) (o : HObj) : hget (alloc h o).1 h.cells.length = o := by
  simp [alloc, hget, List.getD]

/-- A write through a single-segment (top-level) path only touches the root
cell. -/
theorem setPathHeap_top (h : Heap) (a : Nat) (k : String) (v : HVal) :
    setPathHeap h a [k] v = hset h a (setFieldH (hget h a) k v) := rfl

theorem foldl_topWrites_length (a : Nat) : ∀ (entries : List (String × HVal)) (h : Heap),
    (∀ kv ∈ entries, (splitPath kv.1).length = 1) →
    (entries.foldl (fun h2 kv => setPathHeap h2 a (splitPath kv.1) kv.2) h).cells.length
      = h.cells.length
  | [], _, _ => rfl
  | kv :: rest, h, htop => by
      obtain ⟨k, hk⟩ := List.length_eq_one.mp (htop kv (List.Mem.head _))
      simp only [List.foldl_cons]
      rw [foldl_topWrites_length a rest _ (fun kv2 h2 => htop kv2 (List.Mem.tail _ h2)), hk,
        setPathHeap_top, hset_length]

theorem foldl_topWrites_get_ne (a b : Nat) (hab : a ≠ b) :
    ∀ (entries : List (String × HVal)) (h : Heap),
    (∀ kv ∈ entries, (splitPath kv.1).length = 1) →
    hget (entries.foldl (fun h2 kv => setPathHeap h2 a (splitPath kv.1) kv.2) h) b = hget h b
  | [], _, _ => rfl
  | kv :: rest, h, htop => by
      obtain ⟨k, hk⟩ := List.length_eq_one.mp (htop kv (List.Mem.head _))
      simp only [List.foldl_cons]
      rw [foldl_topWrites_get_ne a b hab rest _ (fun kv2 h2 => htop kv2 (List.Mem.tail _ h2)), hk,
        setPathHeap_top, hget_hset_ne _ _ _ _ hab]

theorem addToHistoryH_len (l : List HistEntryH) (e : HistEntryH)
    (h : l.length ≤ maxHistoryLength) : (addToHistoryH l e).length ≤ maxHistoryLength := by
  simp only [maxHistoryLength] at h ⊢
  unfold addToHistoryH
  simp only [maxHistoryLength]
  by_cases hc : 50 < (l ++ [e]).length
  · rw [if_pos hc]
    simp only [List.length_tail, List.length_append, List.length_cons, List.length_nil] at hc ⊢
    omega
  · rw [if_neg hc]
    omega

theorem addToHistoryH_fifo (l : List HistEntryH) (e : HistEntryH)
    (h : l.length = maxHistoryLength) : addToHistoryH l e = l.tail ++ [e] := by
  unfold addToHistoryH
  rw [if_pos (by simp [h, maxHistoryLength])]
  cases l with
  | nil => simp [maxHistoryLength] at h
  | cons x rest => rfl

/-- Counterexample for C2: on the constructor's initial state, the single
`setState("preferences.reducedMotion", true)` call appends a history entry
whose `oldState` spread (cell 7) reads back the NEW value `true` at the
written path, even though the tree held `false` before the call — the
`{ ...this.state }` snapshot shares the nested `preferences` object with the
live tree, so it is not a snapshot of the prior full tree. -/
theorem C2_counterexample_shallow_snapshot :
    (setStateHeap initSMH [("preferences.reducedMotion", .hbool true)]).history
      = [⟨0, 7, 8⟩] ∧
    readPathHeap initSMH.heap initSMH.stateAddr (splitPath "preferences.reducedMotion")
      = some (.hbool false) ∧
    readPathHeap (setStateHeap initSMH [("preferences.reducedMotion", .hbool true)]).heap 7
        (splitPath "preferences.reducedMotion")
      = some (.hbool true) :=
  ⟨rfl, rfl, rfl⟩

/-- C2 (amended): every `setState` call appends one history entry carrying a
timestamp and two shallow (top-level) state spreads, the first taken before
and the second after the writes; the buffer stays within its cap of 50 with
oldest-first eviction; and for calls that write only top-level paths the two
spreads read back, at every top-level key, the prior and the posterior tree
respectively.  (For a write under a nested path the prior spread shares the
mutated nested object — see the counterexample.) -/
theorem C2_amended_capped_shallow_history (m : SMH) (entries : List (String × HVal))
    (k2 : String) :
    ∃ oldA newA,
      (setStateHeap m entries).history = addToHistoryH m.history ⟨m.time, oldA, newA⟩ ∧
      (m.history.length ≤ maxHistoryLength →
        (setStateHeap m entries).history.length ≤ maxHistoryLength) ∧
      (m.history.length = maxHistoryLength →
        (setStateHeap m entries).history = m.history.tail ++ [⟨m.time, oldA, newA⟩]) ∧
      (m.stateAddr < m.heap.cells.length →
        (∀ kv ∈ entries, (splitPath kv.1).length = 1) →
        readPathHeap (setStateHeap m entries).heap oldA [k2]
          = readPathHeap m.heap m.stateAddr [k2] ∧
        readPathHeap (setStateHeap m entries).heap newA [k2]
          = readPathHeap (setStateHeap m entries).heap m.stateAddr [k2]) := by
  have hrd : ∀ (h : Heap) (a : Nat), readPathHeap h a [k2] = lookupH (hget h a) k2 :=
    fun _ _ => rfl
  have heq : (setStateHeap m entries).history
      = addToHistoryH m.history
          ⟨m.time, m.heap.cells.length,
            (entries.foldl (fun h2 kv => setPathHeap h2 m.stateAddr (splitPath kv.1) kv.2)
              (alloc m.heap (hget m.heap m.stateAddr)).1).cells.length⟩ := rfl
  refine ⟨m.heap.cells.length,
    (entries.foldl (fun h2 kv => setPathHeap h2 m.stateAddr (splitPath kv.1) kv.2)
      (alloc m.heap (hget m.heap m.stateAddr)).1).cells.length, heq, ?_, ?_, ?_⟩
  · intro hle
    rw [heq]
    exact addToHistoryH_len _ _ hle
  · intro hfull
    rw [heq]
    rw [addToHistoryH_fifo _ _ hfull]
  · intro hlen htop
    have hne : m.stateAddr ≠ m.heap.cells.length := Nat.ne_of_lt hlen
    have hh2len : (entries.foldl (fun h2 kv => setPathHeap h2 m.stateAddr (splitPath kv.1) kv.2)
          (alloc m.heap (hget m.heap m.stateAddr)).1).cells.length
        = m.heap.cells.length + 1 := by
      rw [foldl_topWrites_length m.stateAddr entries _ htop]
      simp [alloc]
    constructor
    · have hgetold : hget (setStateHeap m entries).heap m.heap.cells.length
          = hget m.heap m.stateAddr := by
        show hget (alloc (entries.foldl (fun h2 kv => setPathHeap h2 m.stateAddr (splitPath kv.1) kv.2)
            (alloc m.heap (hget m.heap m.stateAddr)).1)
            (hget (entries.foldl (fun h2 kv => setPathHeap h2 m.stateAddr (splitPath kv.1) kv.2)
              (alloc m.heap (hget m.heap m.stateAddr)).1) m.stateAddr)).1 m.heap.cells.length = _
        rw [hget_alloc_lt _ _ _ (by rw [hh2len]; omega),
          foldl_topWrites_get_ne m.stateAddr m.heap.cells.length hne entries _ htop,
          hget_alloc_self]
      rw [hrd, hrd, hgetold]
    · have hgetnew : hget (setStateHeap m entries).heap
          (entries.foldl (fun h2 kv => setPathHeap h2 m.stateAddr (splitPath kv.1) kv.2)
            (alloc m.heap (hget m.heap m.stateAddr)).1).cells.length
          = hget (entries.foldl (fun h2 kv => setPathHeap h2 m.stateAddr (splitPath kv.1) kv.2)
              (alloc m.heap (hget m.heap m.stateAddr)).1) m.stateAddr :=
        hget_alloc_self _ _
      have hgetst : hget (setStateHeap m entries).heap m.stateAddr
          = hget (entries.foldl (fun h2 kv => setPathHeap h2 m.stateAddr (splitPath kv.1) kv.2)
              (alloc m.heap (hget m.heap m.stateAddr)).1) m.stateAddr :=
        hget_alloc_lt _ _ _ (by rw [hh2len]; omega)
      rw [hrd, hrd, hgetnew, hgetst]

/-- Witness for the amended C2: a top-level write on the heap-model store
whose history already holds 50 entries — the entry is appended, the oldest
entry is evicted, the cap holds, and both spreads are faithful at the
top-level key `"theme"`. -/
theorem C2_amended_capped_shallow_history_witness :
    ∃ oldA newA,
      (setStateHeap smhFullC2 [("isLoading", .hbool true)]).history
        = addToHistoryH smhFullC2.history ⟨smhFullC2.time, oldA, newA⟩ ∧
      (smhFullC2.history.length ≤ maxHistoryLength →
        (setStateHeap smhFullC2 [("isLoading", .hbool true)]).history.length
          ≤ maxHistoryLength) ∧
      (smhFullC2.history.length = maxHistoryLength →
        (setStateHeap smhFullC2 [("isLoading", .hbool true)]).history
          = smhFullC2.history.tail ++ [⟨smhFullC2.time, oldA, newA⟩]) ∧
      (smhFullC2.stateAddr < smhFullC2.heap.cells.length →
        (∀ kv ∈ [(("isLoading" : String), HVal.hbool true)], (splitPath kv.1).length = 1) →
        readPathHeap (setStateHeap smhFullC2 [("isLoading", .hbool true)]).heap oldA ["theme"]
          = readPathHeap smhFullC2.heap smhFullC2.stateAddr ["theme"] ∧
        readPathHeap (setStateHeap smhFullC2 [("isLoading", .hbool true)]).heap newA ["theme"]
          = readPathHeap (setStateHeap smhFullC2 [("isLoading", .hbool true)]).heap
              smhFullC2.stateAddr ["theme"]) :=
  C2_amended_capped_shallow_history smhFullC2 [("isLoading", .hbool true)] "theme"
